import Mathlib

set_option linter.unusedVariables false

/-!
Shallow embedding of the command-line front end of fastboot.c
(Fastboot-Kindle).  Strings manipulated in place by the C code are
modelled as immutable character lists; the destructive splitting on
NUL bytes becomes functional splitting.  The fatal exits performed by
die() and usage() become an Except error value, and the fb_queue_*
calls append to an explicit queue inside the parser state.
-/

/-- C isspace for the default locale: space, tab, newline, vertical
tab, form feed, carriage return. -/
def isSpaceC (c : Char) : Bool :=
  c = ' ' || c = '\t' || c = '\n' || c = '\x0b' || c = '\x0c' || c = '\r'

/-- The strip function of fastboot.c: skip leading isspace characters,
then overwrite trailing isspace characters with NUL.  Functionally:
drop spaces from the front, then from the back. -/
def strip (s : List Char) : List Char :=
  ((s.dropWhile isSpaceC).reverse.dropWhile isSpaceC).reverse

/-- strchr followed by the *x = 0 idiom: split a string at the first
occurrence of a character, none when the character does not occur. -/
def splitFirst (ch : Char) : List Char → Option (List Char × List Char)
  | [] => none
  | c :: rest =>
    if c = ch then some ([], rest)
    else
      match splitFirst ch rest with
      | none => none
      | some (a, b) => some (c :: a, b)

/-- The MAX_OPTIONS macro of fastboot.c. -/
def MAX_OPTIONS : Nat := 32

/-- The val[] splitting loop of setup_requirement_line: with n further
splits allowed, cut the string at each bar; once the budget is
exhausted the remainder stays in the last slot.  The C loop runs for
count = 1 .. MAX_OPTIONS - 1, i.e. the budget is MAX_OPTIONS - 1. -/
def splitPipes : Nat → List Char → List (List Char)
  | 0, s => [s]
  | n + 1, s =>
    match splitFirst '|' s with
    | none => [s]
    | some (a, b) => a :: splitPipes n b

/-- strncmp(name, p, strlen(p)) == 0 together with the pointer bump
name += strlen(p): some rest when p is an initial segment. -/
def dropPref : List Char → List Char → Option (List Char)
  | [], s => some s
  | _ :: _, [] => none
  | p :: ps, c :: cs => if c = p then dropPref ps cs else none

/-- The record passed to fb_queue_require. -/
structure Requirement where
  name : List Char
  invert : Bool
  values : List (List Char)
  deriving DecidableEq, Repr

/-- setup_requirement_line of fastboot.c.  Returns none when the line
holds no '=' character (the C function returns 0 there without queuing
anything, so the line is skipped).  The C checks `name == 0` after
strip, but strip always returns a non-null pointer, so that -1 branch
is unreachable; the only other -1 branches are malloc failures, which
the embedding (with no allocator) does not have.  The name and each
value are stripped twice in the C (lines 256-259 and again inside the
strdup loop); strip is applied the same number of times here. -/
def setup_requirement_line (l : List Char) : Option Requirement :=
  let pref :=
    match dropPref ("reject ".data) l with
    | some r => (r, true)
    | none =>
      match dropPref ("require ".data) l with
      | some r => (r, false)
      | none => (l, false)
  match splitFirst '=' pref.1 with
  | none => none
  | some (n, rest) =>
    let vals := (splitPipes (MAX_OPTIONS - 1) rest).map strip
    let nm := strip (strip n)
    let nm := if nm = "board".data then "product".data else nm
    some ⟨nm, pref.2, vals.map strip⟩

/-- The scanning loop of setup_requirements: cur is the portion of the
current line read so far (the C keeps a pointer to its start instead);
every newline terminates a line, and characters after the last newline
are never handed to setup_requirement_line because the loop only acts
when it reads a newline. -/
def scanLines : List Char → List Char → List (List Char)
  | _, [] => []
  | cur, c :: rest =>
    if c = '\n' then cur :: scanLines [] rest
    else scanLines (cur ++ [c]) rest

/-- setup_requirements of fastboot.c: feed every newline-terminated
line to setup_requirement_line, collecting the queued records.  (The
die("out of memory") path fires only when setup_requirement_line
returns -1, which the embedding cannot reach, so no error value is
needed.) -/
def setup_requirements (buf : List Char) : List Requirement :=
  (scanLines [] buf).filterMap setup_requirement_line

/-- A requirements buffer assembled from newline-terminated lines, for
stating how setup_requirements walks a well-formed buffer. -/
def assembleLines (ls : List (List Char)) : List Char :=
  (ls.map (fun l => l ++ ['\n'])).flatten

/-- Reassemble the value tokens with single bars between them; used to
state that the bounded splitting loses no characters. -/
def joinPipes : List (List Char) → List Char
  | [] => []
  | [t] => t
  | t :: ts => t ++ '|' :: joinPipes ts

/-- Hex digit test, as used by strtoul for bases 16 and below. -/
def isHexC (c : Char) : Bool :=
  c.isDigit || ('a' ≤ c && c ≤ 'f') || ('A' ≤ c && c ≤ 'F')

/-- Octal digit test. -/
def isOctC (c : Char) : Bool :=
  '0' ≤ c && c ≤ '7'

/-- Numeric value of a (hex) digit character. -/
def digitVal (c : Char) : Nat :=
  if c.isDigit then c.toNat - 48
  else if 'a' ≤ c && c ≤ 'f' then c.toNat - 87
  else c.toNat - 55

/-- Accumulate a digit string in the given base. -/
def digitsVal (base : Nat) (ds : List Char) : Nat :=
  List.foldl (fun acc c => acc * base + digitVal c) 0 ds

/-- ULONG_MAX on the 64-bit platforms this tool targets. -/
def ULONG_MAX : Nat := 2 ^ 64 - 1

/-- strtoul(s, &endptr, 0) of the C library, as a pure function
returning the converted value and the tail of the string starting at
endptr.  Base 0: after optional whitespace and an optional sign, a
0x/0X prefix followed by at least one hex digit selects base 16, an
other leading 0 selects base 8, a nonzero digit selects base 10.  When
no digits can be converted, endptr is reset to the original start of
the string (so the whitespace and sign are not consumed).  A value
exceeding ULONG_MAX is clamped to ULONG_MAX; otherwise a leading minus
sign negates the value in unsigned 64-bit arithmetic. -/
def strtoul0 (s : List Char) : Nat × List Char :=
  let s1 := s.dropWhile isSpaceC
  let pr : Bool × List Char :=
    match s1 with
    | '-' :: r => (true, r)
    | '+' :: r => (false, r)
    | _ => (false, s1)
  let conv : Option (Nat × List Char) :=
    match pr.2 with
    | '0' :: c :: r =>
      if (c = 'x' || c = 'X') && (match r with | h :: _ => isHexC h | [] => false) then
        some (digitsVal 16 (r.takeWhile isHexC), r.dropWhile isHexC)
      else
        some (digitsVal 8 (('0' :: c :: r).takeWhile isOctC),
              ('0' :: c :: r).dropWhile isOctC)
    | ['0'] => some (0, [])
    | c :: _ =>
      if c.isDigit then
        some (digitsVal 10 (pr.2.takeWhile Char.isDigit), pr.2.dropWhile Char.isDigit)
      else none
    | [] => none
  match conv with
  | none => (0, s)
  | some (v, rest) =>
    if v > ULONG_MAX then (ULONG_MAX, rest)
    else if pr.1 then ((2 ^ 64 - v) % 2 ^ 64, rest)
    else (v, rest)

/-- One fb_queue_* entry of fastboot.c, carrying the arguments the C
passes: fb_queue_display(var, prompt), fb_queue_set(var, val, prompt),
fb_queue_download(dest, data, sz), fb_queue_verify(part, sz),
fb_queue_flash(part, sz), fb_queue_erase(part), fb_queue_check(part),
fb_queue_command(cmd, msg), fb_queue_reboot(). -/
inductive QueueEntry where
  | Display (var prompt : String)
  | SetVar (var val prompt : String)
  | Download (dest : String) (data : List Nat) (sz : Nat)
  | Verify (part : String) (sz : Nat)
  | Flash (part : String) (sz : Nat)
  | Erase (part : String)
  | Check (part : String)
  | Command (cmd msg : String)
  | Reboot
  deriving DecidableEq, Repr

/-- The file system seen by load_file: path to file bytes. -/
def FS : Type := String → Option (List Nat)

/-- Mutable state of main(): the serial and vendor_id globals, the
local sz (which C leaves uninitialized until a load_file call writes
it), and the queue built by the fb_queue_* calls. -/
structure PState where
  serial : Option String
  vendor_id : Nat
  sz : Nat
  queue : List QueueEntry
  deriving DecidableEq, Repr

/-- The fatal exits of fastboot.c: usage() (exit 1 after printing the
usage text) and die(msg) (exit 1 after printing msg). -/
inductive FbError where
  | UsageError
  | Die (msg : String)
  deriving DecidableEq, Repr

/-- Outcome of one iteration of the scanning loop: either the loop is
over, successfully or fatally, or it continues with the remaining
tokens and the updated state. -/
inductive StepRes where
  | done (r : Except FbError PState)
  | cont (rest : List String) (st : PState)
  deriving Repr

/-- One iteration of the option/command scanning loop of main()
(fastboot.c lines 337-453), dispatching on the first token arg, with
rest the tokens after it.  Each branch consumes tokens from the front
exactly as the skip()/require() macros move argc/argv; require
failing becomes UsageError, die becomes Die.  The oem branch models
do_oem_command, which concatenates ALL remaining tokens, argv[0] =
"oem" included, with single spaces, and returns 0 so the loop always
ends after it; with no token after oem it queues nothing.  The
(unsigned short) cast on the vendor id is the mod 65536 below. -/
def step (fs : FS) (arg : String) (rest : List String) (st : PState) : StepRes :=
  if arg = "-s" then
    match rest with
    | v :: r2 => .cont r2 { st with serial := some v }
    | [] => .done (.error .UsageError)
  else if arg = "-i" then
    match rest with
    | v :: r2 =>
      let p := strtoul0 v.data
      if p.2 = [] ∧ p.1 < 65536 then
        .cont r2 { st with vendor_id := p.1 % 65536 }
      else .done (.error (.Die "invalid vendor id"))
    | [] => .done (.error .UsageError)
  else if arg = "getvar" then
    match rest with
    | v :: r2 => .cont r2 { st with queue := st.queue ++ [.Display v v] }
    | [] => .done (.error .UsageError)
  else if arg = "setvar" then
    match rest with
    | a :: b :: r2 => .cont r2 { st with queue := st.queue ++ [.SetVar a b a] }
    | _ => .done (.error .UsageError)
  else if arg = "download" then
    match rest with
    | f :: r2 =>
      match fs f with
      | some d =>
        .cont r2 { st with sz := d.length,
                           queue := st.queue ++ [.Download "data" d d.length] }
      | none => .done (.error (.Die "cannot load"))
    | [] => .done (.error .UsageError)
  else if arg = "verify" then
    match rest with
    | p :: f :: r2 =>
      match fs f with
      | some d =>
        .cont r2 { st with sz := d.length,
                           queue := st.queue ++
                             [.Download p d d.length, .Verify p d.length] }
      | none => .done (.error (.Die "cannot load"))
    | [p] => .done (.ok { st with queue := st.queue ++ [.Verify p st.sz] })
    | [] => .done (.error .UsageError)
  else if arg = "flash" then
    match rest with
    | p :: f :: r2 =>
      match fs f with
      | some d =>
        .cont r2 { st with sz := d.length,
                           queue := st.queue ++
                             [.Download p d d.length, .Flash p d.length] }
      | none => .done (.error (.Die "cannot load"))
    | [p] => .done (.ok { st with queue := st.queue ++ [.Flash p st.sz] })
    | [] => .done (.error .UsageError)
  else if arg = "eraseall" then
    .cont rest { st with queue := st.queue ++ [.Command "eraseall" "wiping the flash memory"] }
  else if arg = "erase" then
    match rest with
    | p :: r2 => .cont r2 { st with queue := st.queue ++ [.Erase p] }
    | [] => .done (.error .UsageError)
  else if arg = "check" then
    match rest with
    | p :: r2 => .cont r2 { st with queue := st.queue ++ [.Check p] }
    | [] => .done (.error .UsageError)
  else if arg = "boot" then
    match rest with
    | f :: r2 =>
      match fs f with
      | some d =>
        .cont r2 { st with sz := d.length,
                           queue := st.queue ++
                             [.Download "boot" d d.length, .Command "boot" "booting"] }
      | none => .done (.error (.Die "cannot load"))
    | [] => .done (.ok { st with queue := st.queue ++ [.Command "boot" "booting"] })
  else if arg = "continue" then
    .cont rest { st with queue := st.queue ++ [.Command "continue" "resuming boot"] }
  else if arg = "oem" then
    match rest with
    | [] => .done (.ok st)
    | _ :: _ =>
      .done (.ok { st with queue := st.queue ++
               [.Command (String.intercalate " " (arg :: rest)) ""] })
  else if arg = "reboot" then
    .cont rest { st with queue := st.queue ++ [.Reboot] }
  else if arg = "powerdown" then
    .cont rest { st with queue := st.queue ++ [.Command "powerdown" "shutting down"] }
  else if arg = "pass" then
    .cont rest { st with queue := st.queue ++ [.Command "pass" "turning on led"] }
  else if arg = "fail" then
    .cont rest { st with queue := st.queue ++ [.Command "fail" "turning on led"] }
  else .done (.error .UsageError)

/-- The scanning loop of main(), driven by a fuel counter.  Every
iteration of the C loop consumes at least one token, so the fuel
args.length supplied by run below always suffices and the
fuel-exhausted fallback (second equation) is unreachable from run. -/
def runAux (fs : FS) : Nat → List String → PState → Except FbError PState
  | _, [], st => .ok st
  | 0, _ :: _, st => .ok st
  | n + 1, arg :: rest, st =>
    match step fs arg rest st with
    | .done r => r
    | .cont rest2 st2 => runAux fs n rest2 st2

/-- The full option/command scanning loop of main() on a token list:
iterate step until the tokens run out or the loop ends. -/
def run (fs : FS) (args : List String) (st : PState) : Except FbError PState :=
  runAux fs args.length args st

/-- State at the top of the scanning loop: serial from the
KINDLE_SERIAL environment variable, vendor_id 0, sz uninitialized in
the C and hence an arbitrary parameter sz0 here, empty queue. -/
def initState (env : Option String) (sz0 : Nat) : PState :=
  ⟨env, 0, sz0, []⟩

/-- Outcome of main(): the devices mode exits before the loop, and
otherwise the queue built by a successful scan is handed, with the
device filter, to fb_execute_queue. -/
inductive MainOutcome where
  | listDevices
  | exec (q : List QueueEntry) (serial : Option String) (vendor : Nat)
  deriving DecidableEq, Repr

/-- main() of fastboot.c after skip(1): no tokens prints usage; a
first token "devices" lists devices and returns before the loop; else
the loop runs from initState and, only if it ends without a fatal
exit, the queue is executed. -/
def fastboot_main (fs : FS) (env : Option String) (sz0 : Nat) :
    List String → Except FbError MainOutcome
  | [] => .error .UsageError
  | a :: args =>
    if a = "devices" then .ok .listDevices
    else
      match run fs (a :: args) (initState env sz0) with
      | .ok st => .ok (.exec st.queue st.serial st.vendor_id)
      | .error e => .error e

/-- The operations fb_execute_queue actually receives: none at all
unless parsing of the whole command line succeeded. -/
def executedQueue (fs : FS) (env : Option String) (sz0 : Nat)
    (args : List String) : List QueueEntry :=
  match fastboot_main fs env sz0 args with
  | .ok (.exec q _ _) => q
  | _ => []

deriving instance DecidableEq for Except

/-- The empty file system, for concrete runs that load no file. -/
def fs0 : FS := fun _ => none

/-- A one-file file system holding img.bin with three bytes, for
concrete witnesses. -/
def fsImg : FS := fun n => if n = "img.bin" then some [7, 8, 9] else none

/-- The tokens the scanning loop of main() dispatches on; any other
token in dispatch position falls to the final usage() branch. -/
def knownTok (t : String) : Bool :=
  decide (t ∈ (["-s", "-i", "getvar", "setvar", "download", "verify", "flash",
                "eraseall", "erase", "check", "boot", "continue", "oem",
                "reboot", "powerdown", "pass", "fail"] : List String))

/-- The require(n) argument of each dispatch token: the least number
of tokens, the token itself included, that must remain or usage() is
called.  Tokens with no require() check, oem included, map to none. -/
def requiredArity (t : String) : Option Nat :=
  if t = "-s" then some 2
  else if t = "-i" then some 2
  else if t = "getvar" then some 2
  else if t = "setvar" then some 3
  else if t = "download" then some 2
  else if t = "verify" then some 2
  else if t = "flash" then some 2
  else if t = "erase" then some 2
  else if t = "check" then some 2
  else if t = "boot" then some 1
  else none

/-- Modelled from the spec: an unsigned integer literal, decimal or
0x-prefixed, covering the full string with no trailing garbage.  Used
only to compare the spec wording for the -i value against what the
code accepts. -/
def specUIntLiteral (s : List Char) : Bool :=
  (decide (s ≠ []) && s.all Char.isDigit) ||
  (match s with
   | '0' :: c :: r => (c = 'x' || c = 'X') && decide (r ≠ []) && r.all isHexC
   | _ => false)

/-- A value string made of 32 bar characters, for the fixed-capacity
boundary of the requirements value list. -/
def pipes32 : List Char := List.replicate 32 '|'

/-- splitFirst finds nothing when the character does not occur. -/
theorem splitFirst_eq_none_of_not_mem {ch : Char} :
    ∀ {s : List Char}, ch ∉ s → splitFirst ch s = none := by
  intro s
  induction s with
  | nil => intro _; rfl
  | cons c cs ih =>
    intro h
    have hc : ¬(c = ch) := fun e => h (e ▸ List.mem_cons_self c cs)
    have hcs : ch ∉ cs := fun hx => h (List.mem_cons_of_mem c hx)
    simp [splitFirst, hc, ih hcs]

/-- Conversely, if splitFirst finds nothing the character is absent. -/
theorem not_mem_of_splitFirst_eq_none {ch : Char} :
    ∀ {s : List Char}, splitFirst ch s = none → ch ∉ s := by
  intro s
  induction s with
  | nil => intro _; simp
  | cons c cs ih =>
    intro h
    simp only [splitFirst] at h
    by_cases hc : c = ch
    · rw [if_pos hc] at h; exact absurd h (by simp)
    · rw [if_neg hc] at h
      cases hsf : splitFirst ch cs with
      | none =>
        intro hmem
        rcases List.mem_cons.mp hmem with h1 | h2
        · exact hc h1.symm
        · exact ih hsf h2
      | some p => rw [hsf] at h; cases p; simp at h

/-- A successful splitFirst decomposes the string at the first
occurrence of the character. -/
theorem splitFirst_eq_some {ch : Char} :
    ∀ {s a b : List Char}, splitFirst ch s = some (a, b) →
      s = a ++ ch :: b ∧ ch ∉ a := by
  intro s
  induction s with
  | nil => intro a b h; simp [splitFirst] at h
  | cons c cs ih =>
    intro a b h
    simp only [splitFirst] at h
    by_cases hc : c = ch
    · rw [if_pos hc] at h
      simp only [Option.some.injEq, Prod.mk.injEq] at h
      obtain ⟨ha, hb⟩ := h
      subst ha; subst hb; subst hc
      simp
    · rw [if_neg hc] at h
      cases hsf : splitFirst ch cs with
      | none => rw [hsf] at h; simp at h
      | some p =>
        rw [hsf] at h
        obtain ⟨a2, b2⟩ := p
        simp only [Option.some.injEq, Prod.mk.injEq] at h
        obtain ⟨ha, hb⟩ := h
        subst ha; subst hb
        obtain ⟨h1, h2⟩ := ih hsf
        refine ⟨by rw [List.cons_append, h1], ?_⟩
        intro hmem
        rcases List.mem_cons.mp hmem with h3 | h4
        · exact hc h3.symm
        · exact h2 h4

/-- A successful dropPref certifies the string begins with the
pattern. -/
theorem dropPref_eq_some :
    ∀ {p s r : List Char}, dropPref p s = some r → s = p ++ r := by
  intro p
  induction p with
  | nil =>
    intro s r h
    simp only [dropPref, Option.some.injEq] at h
    simp [h]
  | cons a ps ih =>
    intro s r h
    cases s with
    | nil => simp [dropPref] at h
    | cons c cs =>
      simp only [dropPref] at h
      by_cases hc : c = a
      · rw [if_pos hc] at h
        subst hc
        rw [List.cons_append]
        exact congrArg (c :: ·) (ih h)
      · rw [if_neg hc] at h; exact absurd h (by simp)

/-- A line with no '=' character makes setup_requirement_line skip:
it queues nothing and reports no error. -/
theorem setup_requirement_line_eq_none :
    ∀ {l : List Char}, '=' ∉ l → setup_requirement_line l = none := by
  intro l h
  unfold setup_requirement_line
  cases h1 : dropPref ("reject ".data) l with
  | some r =>
    have hl := dropPref_eq_some h1
    have hr : '=' ∉ r := fun hm => h (hl ▸ List.mem_append_right _ hm)
    simp [splitFirst_eq_none_of_not_mem hr]
  | none =>
    cases h2 : dropPref ("require ".data) l with
    | some r =>
      have hl := dropPref_eq_some h2
      have hr : '=' ∉ r := fun hm => h (hl ▸ List.mem_append_right _ hm)
      simp [splitFirst_eq_none_of_not_mem hr]
    | none =>
      simp [splitFirst_eq_none_of_not_mem h]

/-- The scanning loop emits nothing from a newline-free suffix. -/
theorem scanLines_eq_nil :
    ∀ (rest : List Char), '\n' ∉ rest → ∀ cur, scanLines cur rest = [] := by
  intro rest
  induction rest with
  | nil => intro _ cur; rfl
  | cons c cs ih =>
    intro h cur
    have hc : ¬(c = '\n') := fun e => h (e ▸ List.mem_cons_self c cs)
    have hcs : '\n' ∉ cs := fun hx => h (List.mem_cons_of_mem c hx)
    simp [scanLines, hc, ih hcs]

/-- The scanning loop cuts exactly at the first newline. -/
theorem scanLines_append_line :
    ∀ (l : List Char), '\n' ∉ l → ∀ cur rest,
      scanLines cur (l ++ '\n' :: rest) = (cur ++ l) :: scanLines [] rest := by
  intro l
  induction l with
  | nil => intro _ cur rest; simp [scanLines]
  | cons c cs ih =>
    intro h cur rest
    have hc : ¬(c = '\n') := fun e => h (e ▸ List.mem_cons_self c cs)
    have hcs : '\n' ∉ cs := fun hx => h (List.mem_cons_of_mem c hx)
    simp only [List.cons_append, scanLines, if_neg hc, List.append_eq]
    rw [ih hcs (cur ++ [c]) rest]
    simp

/-- On a buffer of newline-terminated lines the scanning loop returns
exactly those lines. -/
theorem scanLines_assemble :
    ∀ lns : List (List Char), (∀ l ∈ lns, '\n' ∉ l) →
      scanLines [] (assembleLines lns) = lns := by
  intro lns
  induction lns with
  | nil => exact fun _ => rfl
  | cons ln rest ih =>
    intro h
    have hl : '\n' ∉ ln := h ln (List.mem_cons_self ln rest)
    have hrest : ∀ x ∈ rest, '\n' ∉ x :=
      fun x hx => h x (List.mem_cons_of_mem ln hx)
    have hca : assembleLines (ln :: rest) = ln ++ '\n' :: assembleLines rest := by
      simp [assembleLines]
    rw [hca, scanLines_append_line ln hl [] (assembleLines rest), ih hrest]
    simp

/-- A newline-free tail of the buffer never reaches
setup_requirement_line. -/
theorem scanLines_append_tail :
    ∀ (buf cur tail : List Char), '\n' ∉ tail →
      scanLines cur (buf ++ tail) = scanLines cur buf := by
  intro buf
  induction buf with
  | nil => intro cur tail h; simp [scanLines, scanLines_eq_nil tail h cur]
  | cons c cs ih =>
    intro cur tail h
    by_cases hc : c = '\n'
    · subst hc
      simp only [List.cons_append, scanLines, reduceIte, List.append_eq]
      rw [ih [] tail h]
    · simp only [List.cons_append, scanLines, if_neg hc, List.append_eq]
      exact ih (cur ++ [c]) tail h

/-- splitPipes always yields at least one token. -/
theorem splitPipes_ne_nil : ∀ (n : Nat) (s : List Char), splitPipes n s ≠ [] := by
  intro n s
  cases n with
  | zero => simp [splitPipes]
  | succ m =>
    simp only [splitPipes]
    cases h : splitFirst '|' s with
    | none => simp
    | some p => cases p; simp

/-- Full behavior of the bounded bar splitting: with a budget of n
cuts it yields min (bars + 1) (n + 1) tokens, reassembling the tokens
with bars restores the input, and only the last token can still hold a
bar. -/
theorem splitPipes_spec :
    ∀ (n : Nat) (s : List Char),
      (splitPipes n s).length = min (List.count '|' s + 1) (n + 1) ∧
      joinPipes (splitPipes n s) = s ∧
      ∀ t ∈ (splitPipes n s).dropLast, '|' ∉ t := by
  intro n
  induction n with
  | zero =>
    intro s
    refine ⟨?_, rfl, ?_⟩
    · simp only [splitPipes, List.length_singleton]
      omega
    · simp [splitPipes]
  | succ m ih =>
    intro s
    cases hsf : splitFirst '|' s with
    | none =>
      have hnot : '|' ∉ s := not_mem_of_splitFirst_eq_none hsf
      have hcount : List.count '|' s = 0 := List.count_eq_zero.mpr hnot
      refine ⟨?_, ?_, ?_⟩
      · simp only [splitPipes, hsf, List.length_singleton, hcount]
        omega
      · simp [splitPipes, hsf, joinPipes]
      · simp [splitPipes, hsf]
    | some p =>
      obtain ⟨a, b⟩ := p
      obtain ⟨hs, hna⟩ := splitFirst_eq_some hsf
      have hca : List.count '|' a = 0 := List.count_eq_zero.mpr hna
      have hcount : List.count '|' s = List.count '|' b + 1 := by
        rw [hs]
        simp [List.count_append, List.count_cons, hca]
      obtain ⟨ihl, ihj, ihd⟩ := ih b
      have hstep : splitPipes (m + 1) s = a :: splitPipes m b := by
        simp [splitPipes, hsf]
      cases hsp : splitPipes m b with
      | nil => exact absurd hsp (splitPipes_ne_nil m b)
      | cons t ts =>
        rw [hsp] at ihl ihj ihd
        refine ⟨?_, ?_, ?_⟩
        · rw [hstep, hsp]
          simp only [List.length_cons] at ihl ⊢
          omega
        · rw [hstep, hsp]
          show a ++ '|' :: joinPipes (t :: ts) = s
          rw [ihj, hs]
        · rw [hstep, hsp]
          intro x hx
          rw [List.dropLast_cons₂] at hx
          rcases List.mem_cons.mp hx with h1 | h2
          · exact h1 ▸ hna
          · exact ihd x h2

/-- Claim C1, counterexample: in the buffer "a=b\nxyz\nc=d\n" the
middle line has no '=' character, yet parsing neither aborts nor
discards the other records: two requirement records are emitted, so
the claimed abort with zero records does not happen. -/
theorem C1_counterexample :
    setup_requirements ("a=b\nxyz\nc=d\n".data) =
      [⟨"a".data, false, ["b".data]⟩, ⟨"c".data, false, ["d".data]⟩] ∧
    setup_requirements ("a=b\nxyz\nc=d\n".data) ≠ [] := by
  decide

/-- Claim C1 as amended: a constraint line with no '=' character is
silently skipped, yielding no record and no error, and the records of
the other lines of the same buffer are still emitted (the buffer
parses to the filterMap of its newline-terminated lines).  An empty
name after trimming is not rejected either, since the null check on
the result of strip is unreachable: such a line yields a record whose
name is empty. -/
theorem C1_skip_amended :
    (∀ ls : List (List Char), (∀ l ∈ ls, '\n' ∉ l) →
        setup_requirements (assembleLines ls) =
          ls.filterMap setup_requirement_line) ∧
    (∀ l : List Char, '=' ∉ l → setup_requirement_line l = none) ∧
    setup_requirement_line ("=b".data) = some ⟨[], false, ["b".data]⟩ := by
  refine ⟨?_, ?_, by decide⟩
  · intro ls h
    unfold setup_requirements
    rw [scanLines_assemble ls h]
  · intro l h
    exact setup_requirement_line_eq_none h

/-- Witness for C1_skip_amended at the buffer of lines a=b and xyz. -/
theorem C1_skip_amended_witness :
    setup_requirements (assembleLines ["a=b".data, "xyz".data]) =
      List.filterMap setup_requirement_line ["a=b".data, "xyz".data] ∧
    setup_requirement_line ("xyz".data) = none :=
  ⟨C1_skip_amended.1 ["a=b".data, "xyz".data] (by decide),
   C1_skip_amended.2.1 ("xyz".data) (by decide)⟩

/-- Claim C5: a require line splits its values on bars in order, a
reject line sets the invert flag, and the name board is renamed to
product at parse time. -/
theorem C5_requirement_lines :
    setup_requirements ("require product=alpha|beta\n".data) =
      [⟨"product".data, false, ["alpha".data, "beta".data]⟩] ∧
    setup_requirements ("reject board=golden\n".data) =
      [⟨"product".data, true, ["golden".data]⟩] := by
  decide

/-- Claim C9, counterexample: a line whose value text is exactly 32
bars yields 32 value tokens whose last token still holds one bar, so
already the 32nd bar (not the 33rd) is left un-split. -/
theorem C9_counterexample :
    List.count '|' pipes32 = 32 ∧
    setup_requirement_line ("a=".data ++ pipes32) =
      some ⟨"a".data, false, List.replicate 31 [] ++ [['|']]⟩ ∧
    (List.replicate 31 ([] : List Char) ++ [['|']]).length = 32 := by
  decide

/-- Claim C9 as amended: the value text is split into
min (bars + 1) 32 tokens, so at most 32; every bar from the 32nd on
is left un-split inside the last token (only the last token can hold
a bar), and no character is lost: rejoining the tokens with bars
restores the input. -/
theorem C9_split_amended :
    ∀ s : List Char,
      (splitPipes (MAX_OPTIONS - 1) s).length =
        min (List.count '|' s + 1) MAX_OPTIONS ∧
      joinPipes (splitPipes (MAX_OPTIONS - 1) s) = s ∧
      ∀ t ∈ (splitPipes (MAX_OPTIONS - 1) s).dropLast, '|' ∉ t := by
  intro s
  have h := splitPipes_spec (MAX_OPTIONS - 1) s
  simpa [MAX_OPTIONS] using h

/-- Witness for C9_split_amended on the value text a|b. -/
theorem C9_split_amended_witness :
    (splitPipes (MAX_OPTIONS - 1) ("a|b".data)).length =
      min (List.count '|' ("a|b".data) + 1) MAX_OPTIONS ∧
    joinPipes (splitPipes (MAX_OPTIONS - 1) ("a|b".data)) = "a|b".data ∧
    '|' ∉ ("a".data) :=
  ⟨(C9_split_amended ("a|b".data)).1, (C9_split_amended ("a|b".data)).2.1,
   (C9_split_amended ("a|b".data)).2.2 ("a".data) (by decide)⟩

/-- Claim C10: characters after the last newline of a requirements
buffer are ignored, producing neither a record nor an error, and a
buffer without any newline yields no records at all. -/
theorem C10_trailing_ignored :
    (∀ buf : List Char, '\n' ∉ buf → setup_requirements buf = []) ∧
    (∀ buf tail : List Char, '\n' ∉ tail →
      setup_requirements (buf ++ tail) = setup_requirements buf) := by
  constructor
  · intro buf h
    unfold setup_requirements
    rw [scanLines_eq_nil buf h []]
    rfl
  · intro buf tail h
    unfold setup_requirements
    rw [scanLines_append_tail buf [] tail h]

/-- Witness for C10_trailing_ignored: the newline-free buffer a=b
yields nothing, and trailing junk after a complete line changes
nothing. -/
theorem C10_trailing_ignored_witness :
    setup_requirements ("a=b".data) = [] ∧
    setup_requirements ("a=b\n".data ++ "junk=v".data) =
      setup_requirements ("a=b\n".data) :=
  ⟨C10_trailing_ignored.1 ("a=b".data) (by decide),
   C10_trailing_ignored.2 ("a=b\n".data) ("junk=v".data) (by decide)⟩

/-- Claim C2, counterexample: do_oem_command starts concatenating at
argv[0], which is the keyword oem itself, so the queued command name
is "oem foo bar", not "foo bar" with the keyword excluded. -/
theorem C2_counterexample :
    run fs0 ["oem", "foo", "bar"] (initState none 0) =
      .ok ⟨none, 0, 0, [.Command "oem foo bar" ""]⟩ ∧
    QueueEntry.Command "oem foo bar" "" ≠ QueueEntry.Command "foo bar" "" := by
  decide

/-- Claim C2 as amended: the tokens of an oem command, the oem keyword
itself included, are joined with single spaces into one generic
command with an empty progress message; a bare oem queues nothing and
is not an error. -/
theorem C2_oem_amended :
    ∀ (fs : FS) (env : Option String) (sz0 : Nat),
      run fs ["oem", "foo", "bar"] (initState env sz0) =
        .ok ⟨env, 0, sz0, [.Command "oem foo bar" ""]⟩ ∧
      run fs ["oem"] (initState env sz0) = .ok ⟨env, 0, sz0, []⟩ :=
  fun fs env sz0 => ⟨rfl, rfl⟩

/-- Claim C3: flash with a partition and a loadable filename queues
the Download of that file immediately followed by the Flash, both
carrying the file length, and nothing else. -/
theorem C3_flash_with_file :
    ∀ (fs : FS) (d : List Nat) (env : Option String) (sz0 : Nat),
      fs "img.bin" = some d →
      run fs ["flash", "boot", "img.bin"] (initState env sz0) =
        .ok ⟨env, 0, d.length,
             [.Download "boot" d d.length, .Flash "boot" d.length]⟩ := by
  intro fs d env sz0 h
  have e : run fs ["flash", "boot", "img.bin"] (initState env sz0) =
      (match step fs "flash" ["boot", "img.bin"] (initState env sz0) with
       | .done r => r
       | .cont rest2 st2 => runAux fs 2 rest2 st2) := rfl
  have hstep : step fs "flash" ["boot", "img.bin"] (initState env sz0) =
      (match fs "img.bin" with
       | some d2 =>
         StepRes.cont []
           ⟨env, 0, d2.length,
            [QueueEntry.Download "boot" d2 d2.length, QueueEntry.Flash "boot" d2.length]⟩
       | none => StepRes.done (.error (.Die "cannot load"))) := rfl
  rw [e, hstep, h]
  rfl

/-- Witness for C3_flash_with_file on a three-byte img.bin. -/
theorem C3_flash_with_file_witness :
    run fsImg ["flash", "boot", "img.bin"] (initState none 0) =
      .ok ⟨none, 0, 3, [.Download "boot" [7, 8, 9] 3, .Flash "boot" 3]⟩ :=
  C3_flash_with_file fsImg [7, 8, 9] none 0 rfl

/-- Claim C4, counterexample: flash with no filename queues the
current value of the sz variable, which C leaves uninitialized when no
prior download ran; with that indeterminate value being 5 the queue is
Flash(boot, 5), not Flash(boot, 0). -/
theorem C4_counterexample :
    run fs0 ["flash", "boot"] (initState none 5) =
      .ok ⟨none, 0, 5, [.Flash "boot" 5]⟩ ∧
    QueueEntry.Flash "boot" 5 ≠ QueueEntry.Flash "boot" 0 := by
  decide

/-- Claim C4 as amended: flash with no filename queues exactly one
Flash entry whose length is whatever value the sz variable happens to
hold (uninitialized in C when no prior Download ran), not the
constant 0. -/
theorem C4_flash_no_file_amended :
    ∀ (fs : FS) (env : Option String) (sz0 : Nat),
      run fs ["flash", "boot"] (initState env sz0) =
        .ok ⟨env, 0, sz0, [.Flash "boot" sz0]⟩ :=
  fun fs env sz0 => rfl

/-- Claim C6, counterexample: strtoul accepts a leading sign, so the
non-literal +17 passes the -i check and sets the filter, while the
decimal literal 018 (value 18, well within 16 bits) is parsed as
octal, stops at the 8, and is rejected: acceptance is not equivalent
to being a full decimal or 0x literal within 16 bits. -/
theorem C6_counterexample :
    run fs0 ["-i", "+17"] (initState none 0) = .ok ⟨none, 17, 0, []⟩ ∧
    specUIntLiteral ("+17".data) = false ∧
    specUIntLiteral ("018".data) = true ∧
    digitsVal 10 ("018".data) = 18 ∧
    run fs0 ["-i", "018"] (initState none 0) =
      .error (.Die "invalid vendor id") := by
  decide

/-- Claim C6 as amended: the -i value is accepted exactly when strtoul
with base 0 consumes the entire argument and the value fits in 16
bits; this admits leading whitespace, an optional sign, octal via a
leading 0 and the empty string, and rejects decimal literals with a
leading 0 and a digit 8 or 9.  On the claimed examples, 0x1949 is
accepted and sets the filter to 0x1949, and 0x10000 dies. -/
theorem C6_vendor_amended :
    ∀ (fs : FS) (st : PState) (v : String),
      ((strtoul0 v.data).2 = [] ∧ (strtoul0 v.data).1 < 65536 →
        run fs ["-i", v] st =
          .ok { st with vendor_id := (strtoul0 v.data).1 % 65536 }) ∧
      (¬((strtoul0 v.data).2 = [] ∧ (strtoul0 v.data).1 < 65536) →
        run fs ["-i", v] st = .error (.Die "invalid vendor id")) ∧
      run fs0 ["-i", "0x1949"] (initState none 0) =
        .ok ⟨none, 0x1949, 0, []⟩ ∧
      run fs0 ["-i", "0x10000"] (initState none 0) =
        .error (.Die "invalid vendor id") := by
  intro fs st v
  refine ⟨?_, ?_, by decide, by decide⟩
  · intro h
    have e : run fs ["-i", v] st =
        (match step fs "-i" [v] st with
         | .done r => r
         | .cont rest2 st2 => runAux fs 1 rest2 st2) := rfl
    have hstep : step fs "-i" [v] st =
        (if (strtoul0 v.data).2 = [] ∧ (strtoul0 v.data).1 < 65536 then
          StepRes.cont [] { st with vendor_id := (strtoul0 v.data).1 % 65536 }
        else StepRes.done (.error (.Die "invalid vendor id"))) := rfl
    rw [e, hstep, if_pos h]
    rfl
  · intro h
    have e : run fs ["-i", v] st =
        (match step fs "-i" [v] st with
         | .done r => r
         | .cont rest2 st2 => runAux fs 1 rest2 st2) := rfl
    have hstep : step fs "-i" [v] st =
        (if (strtoul0 v.data).2 = [] ∧ (strtoul0 v.data).1 < 65536 then
          StepRes.cont [] { st with vendor_id := (strtoul0 v.data).1 % 65536 }
        else StepRes.done (.error (.Die "invalid vendor id"))) := rfl
    rw [e, hstep, if_neg h]

/-- Witness for C6_vendor_amended at the accepted value 0x1949. -/
theorem C6_vendor_amended_witness :
    run fs0 ["-i", "0x1949"] (initState none 0) =
      .ok { initState none 0 with
              vendor_id := (strtoul0 ("0x1949".data)).1 % 65536 } :=
  (C6_vendor_amended fs0 (initState none 0) "0x1949").1 (by decide)

/-- Claim C7, counterexample: after the getvar command has been
consumed and its queue entry produced, a following -s token still
changes the serial filter from none to abc, so the filter is not
immutable once a command has been recognized. -/
theorem C7_counterexample :
    run fs0 ["getvar", "x"] (initState none 0) =
      .ok ⟨none, 0, 0, [.Display "x" "x"]⟩ ∧
    run fs0 ["getvar", "x", "-s", "abc"] (initState none 0) =
      .ok ⟨some "abc", 0, 0, [.Display "x" "x"]⟩ ∧
    (some "abc" : Option String) ≠ none := by
  decide

/-- Claim C7 as amended: -s (and likewise -i) is an ordinary branch of
the scanning loop, recognized at any position in the token stream, so
a -s after a command still updates the serial filter. -/
theorem C7_options_after_commands_amended :
    ∀ (fs : FS) (st : PState) (v p : String),
      run fs ["-s", v] st = .ok { st with serial := some v } ∧
      run fs ["getvar", p, "-s", v] st =
        .ok { st with serial := some v,
                      queue := st.queue ++ [.Display p p] } :=
  fun fs st v p => ⟨rfl, rfl⟩

/-- The require() table of the scanning loop, spelled out: the only
tokens carrying a require() bound and their bounds. -/
theorem requiredArity_cases :
    ∀ (t : String) (n : Nat), requiredArity t = some n →
      (t = "-s" ∧ n = 2) ∨ (t = "-i" ∧ n = 2) ∨ (t = "getvar" ∧ n = 2) ∨
      (t = "setvar" ∧ n = 3) ∨ (t = "download" ∧ n = 2) ∨
      (t = "verify" ∧ n = 2) ∨ (t = "flash" ∧ n = 2) ∨ (t = "erase" ∧ n = 2) ∨
      (t = "check" ∧ n = 2) ∨ (t = "boot" ∧ n = 1) := by
  intro t n h
  unfold requiredArity at h
  split_ifs at h with e1 e2 e3 e4 e5 e6 e7 e8 e9 e10
  · exact Or.inl ⟨e1, by injection h with hn; omega⟩
  · exact Or.inr (Or.inl ⟨e2, by injection h with hn; omega⟩)
  · exact Or.inr (Or.inr (Or.inl ⟨e3, by injection h with hn; omega⟩))
  · exact Or.inr (Or.inr (Or.inr (Or.inl ⟨e4, by injection h with hn; omega⟩)))
  · exact Or.inr (Or.inr (Or.inr (Or.inr (Or.inl
      ⟨e5, by injection h with hn; omega⟩))))
  · exact Or.inr (Or.inr (Or.inr (Or.inr (Or.inr (Or.inl
      ⟨e6, by injection h with hn; omega⟩)))))
  · exact Or.inr (Or.inr (Or.inr (Or.inr (Or.inr (Or.inr (Or.inl
      ⟨e7, by injection h with hn; omega⟩))))))
  · exact Or.inr (Or.inr (Or.inr (Or.inr (Or.inr (Or.inr (Or.inr (Or.inl
      ⟨e8, by injection h with hn; omega⟩)))))))
  · exact Or.inr (Or.inr (Or.inr (Or.inr (Or.inr (Or.inr (Or.inr (Or.inr
      (Or.inl ⟨e9, by injection h with hn; omega⟩))))))))
  · exact Or.inr (Or.inr (Or.inr (Or.inr (Or.inr (Or.inr (Or.inr (Or.inr
      (Or.inr ⟨e10, by injection h with hn; omega⟩))))))))

set_option maxHeartbeats 1000000 in
/-- Claim C8: a token in dispatch position that the scanning loop does
not recognize, or a dispatch token followed by fewer remaining tokens
than its require() bound, makes the whole invocation fail with the
usage error; in particular getvar with no second token fails that way;
and when main fails, fb_execute_queue receives no entries at all. -/
theorem C8_usage_errors :
    (∀ (t : String) (ts : List String) (st : PState) (fs : FS),
        knownTok t = false → run fs (t :: ts) st = .error .UsageError) ∧
    (∀ (t : String) (n : Nat), requiredArity t = some n →
        ∀ (ts : List String) (st : PState) (fs : FS), ts.length + 1 < n →
          run fs (t :: ts) st = .error .UsageError) ∧
    (∀ (st : PState) (fs : FS), run fs ["getvar"] st = .error .UsageError) ∧
    (∀ (fs : FS) (env : Option String) (sz0 : Nat) (args : List String)
        (er : FbError), fastboot_main fs env sz0 args = .error er →
        executedQueue fs env sz0 args = []) := by
  refine ⟨?_, ?_, ?_, ?_⟩
  · intro t ts st fs h
    simp only [knownTok, decide_eq_false_iff_not, List.mem_cons,
               List.not_mem_nil, or_false, not_or] at h
    obtain ⟨q1, q2, q3, q4, q5, q6, q7, q8, q9, q10, q11, q12, q13, q14,
            q15, q16, q17⟩ := h
    have hstep : step fs t ts st = .done (.error .UsageError) := by
      unfold step
      rw [if_neg q1, if_neg q2, if_neg q3, if_neg q4, if_neg q5, if_neg q6,
          if_neg q7, if_neg q8, if_neg q9, if_neg q10, if_neg q11, if_neg q12,
          if_neg q13, if_neg q14, if_neg q15, if_neg q16, if_neg q17]
    have e : run fs (t :: ts) st =
        (match step fs t ts st with
         | .done r => r
         | .cont rest2 st2 => runAux fs ts.length rest2 st2) := rfl
    rw [e, hstep]
  · intro t n h ts st fs hlen
    rcases requiredArity_cases t n h with ⟨ht, hn⟩ | ⟨ht, hn⟩ | ⟨ht, hn⟩ |
      ⟨ht, hn⟩ | ⟨ht, hn⟩ | ⟨ht, hn⟩ | ⟨ht, hn⟩ | ⟨ht, hn⟩ |
      ⟨ht, hn⟩ | ⟨ht, hn⟩
    all_goals subst ht
    all_goals subst hn
    · cases ts with
      | nil => exact rfl
      | cons a r => simp only [List.length_cons] at hlen; omega
    · cases ts with
      | nil => exact rfl
      | cons a r => simp only [List.length_cons] at hlen; omega
    · cases ts with
      | nil => exact rfl
      | cons a r => simp only [List.length_cons] at hlen; omega
    · cases ts with
      | nil => exact rfl
      | cons a r =>
        cases r with
        | nil => exact rfl
        | cons b r2 => simp only [List.length_cons] at hlen; omega
    · cases ts with
      | nil => exact rfl
      | cons a r => simp only [List.length_cons] at hlen; omega
    · cases ts with
      | nil => exact rfl
      | cons a r => simp only [List.length_cons] at hlen; omega
    · cases ts with
      | nil => exact rfl
      | cons a r => simp only [List.length_cons] at hlen; omega
    · cases ts with
      | nil => exact rfl
      | cons a r => simp only [List.length_cons] at hlen; omega
    · cases ts with
      | nil => exact rfl
      | cons a r => simp only [List.length_cons] at hlen; omega
    · omega
  · intro st fs
    exact rfl
  · intro fs env sz0 args er h
    unfold executedQueue
    rw [h]

set_option maxHeartbeats 1000000 in
/-- Witness for C8_usage_errors: an unknown token, getvar alone, a
setvar with one argument, and the empty executed queue after the
getvar failure. -/
theorem C8_usage_errors_witness :
    run fs0 ["frobnicate"] (initState none 0) = .error .UsageError ∧
    run fs0 ["setvar", "x"] (initState none 0) = .error .UsageError ∧
    run fs0 ["getvar"] (initState none 0) = .error .UsageError ∧
    executedQueue fs0 none 0 ["getvar"] = [] :=
  ⟨C8_usage_errors.1 "frobnicate" [] (initState none 0) fs0 (by decide),
   C8_usage_errors.2.1 "setvar" 3 (by decide) ["x"] (initState none 0) fs0
     (by decide),
   C8_usage_errors.2.2.1 (initState none 0) fs0,
   C8_usage_errors.2.2.2 fs0 none 0 ["getvar"] .UsageError (by decide)⟩
